import Mathlib

/-!
# gh-contrib-fetcher: a shallow embedding of `main.go`

The program parses two flags, performs one HTTP GET against the GitHub events
endpoint, decodes the answer and prints one line per event.

Modelling conventions.

* Go `int` / `int64` are `Int`, Go `string` is `String`, Go `bool` is `Bool`.
* A Go slice is `GoSlice α`: `none` is the `nil` slice, `some xs` a non-nil
  slice holding `xs`. `len` and `range` treat `nil` like the empty slice.
* A Go `error` is `GoError`; `errors.New msg` is `⟨msg⟩` and `Error()` is the
  field `text`.
* The standard library pieces the program calls but does not define
  (`http.NewRequest`, `http.Client.Do`, `json.Decoder.Decode`) are the fields
  of `World`; every theorem holds for every `World`.
* A request is recorded by the two arguments `http.NewRequest` was given, the
  method and the URL string. The URL the library derives from that string,
  and the request target it sends, are `Parse` and `URL.RequestURI`, a model
  of the functions of these names in `net/url`, on the bytes of the string.
* Everything the process does that is visible from outside is recorded, in
  order, in a trace of `Effect`s: writes to standard output, messages handed
  to the standard logger (which writes them to standard error behind a
  timestamp prefix), HTTP round trips, and a ghost mark for each entry into
  `fetchUserActivity`.
-/

namespace GhContrib

/-! ## Go values -/

/-- A Go slice: `none` is `nil`, `some xs` is a non-nil slice with elements `xs`. -/
abbrev GoSlice (α : Type) := Option (List α)

/-- Go `len(s)` on a slice. -/
def GoSlice.len {α : Type} : GoSlice α → Nat
  | none => 0
  | some xs => xs.length

/-- The elements visited by `for _, x := range s`. -/
def GoSlice.elems {α : Type} : GoSlice α → List α
  | none => []
  | some xs => xs

/-- A Go `error` value; `text` is what `Error()` returns. -/
structure GoError where
  text : String
  deriving DecidableEq, Repr

/-- Go `errors.New`. -/
def errorsNew (msg : String) : GoError := ⟨msg⟩

/-- Go `time.Time`, kept as the instant it denotes. -/
structure Time where
  unixNano : Int
  deriving DecidableEq, Repr

/-! ## Data model (`main.go`, lines 15-18 and 97-173) -/

structure application where
  user : String
  resultsPerPage : Int
  deriving DecidableEq, Repr

structure User where
  ID : Int
  Login : String
  NodeID : String
  DisplayLogin : String
  GravatarID : String
  URL : String
  AvatarURL : String
  deriving DecidableEq, Repr

structure Author where
  Name : String
  Email : String
  deriving DecidableEq, Repr

structure Commit where
  Sha : String
  Author : Author
  Message : String
  Distinct : Bool
  ApiURL : String
  deriving DecidableEq, Repr

structure PullRequest where
  User : User
  deriving DecidableEq, Repr

structure Issue where
  User : User
  deriving DecidableEq, Repr

structure Payload where
  Action : String
  RepositoryID : Int
  PushID : Int
  Size : Int
  DistinctSize : Int
  Ref : String
  Head : String
  Before : String
  Commits : GoSlice Commit
  Issue : Issue
  PullRequest : PullRequest
  deriving DecidableEq, Repr

structure Repo where
  ID : Int
  Name : String
  URL : String
  deriving DecidableEq, Repr

structure Organization where
  ID : Int
  Login : String
  GravatarID : String
  URL : String
  AvatarURL : String
  deriving DecidableEq, Repr

structure Event where
  ID : String
  /-- The field `Type` of the source (`Type` is reserved in Lean). -/
  Type_ : String
  User : User
  Repo : Repo
  Payload : Payload
  Public : Bool
  CreatedAt : Time
  Organization : Organization
  deriving DecidableEq, Repr

/-- Go `type Events []Event`. -/
abbrev Events := GoSlice Event

structure EventError where
  Message : String
  DocumentationURL : String
  Status : String
  deriving DecidableEq, Repr

/-! ## Formatting (`fmt`) -/

/-- The verb `%d` applied to an integer: its decimal literal, with a leading
`-` for a negative number. -/
def fmtD : Int → String
  | Int.ofNat n => Nat.repr n
  | Int.negSucc n => "-" ++ Nat.repr (n + 1)

/-! ## The rendering loop (`main`, lines 43-60) -/

/-- The text of the line printed for one event, without its line terminator:
the `switch event.Type` of lines 44-59. Every format string there ends in a
newline, and `fmt.Println` adds one; `renderStep` appends it. -/
def renderLine (event : Event) : String :=
  if event.Type_ = "PushEvent" then
    "- Pushed " ++ fmtD (Int.ofNat event.Payload.Commits.len) ++ " commits to " ++ event.Repo.Name
  else if event.Type_ = "PullRequestEvent" then
    "- Pulled request from " ++ event.Payload.PullRequest.User.Login ++ " branch into " ++ event.Repo.Name
  else if event.Type_ = "WatchEvent" then
    "- Starred " ++ event.Repo.Name
  else if event.Type_ = "IssuesEvent" then
    "- Opened a new issue in " ++ event.Repo.Name
  else if event.Type_ = "ForkEvent" then
    "- Forked " ++ event.Repo.Name
  else if event.Type_ = "IssueCommentEvent" then
    "- " ++ event.Payload.Issue.User.Login ++ " commented on an issue in the " ++ event.Repo.Name
  else
    "- ..."

/-- What the process does that the outside can observe. -/
inductive Effect where
  /-- Bytes written to standard output by one `fmt.Println` / `fmt.Printf`. -/
  | stdout (text : String)
  /-- A message handed to the standard logger by one `log.Println`,
  `log.Printf` or `log.Fatal` (the logger prefixes the time and writes to
  standard error). -/
  | log (text : String)
  /-- Ghost mark: control entered the named function. -/
  | enter (fn : String)
  /-- One `http.Client.Do` round trip, for the request that `http.NewRequest`
  built from this method and this URL string. -/
  | httpDo (method rawURL : String)
  deriving DecidableEq, Repr

/-- One iteration of the loop body (lines 44-59): a single write to standard
output, the rendered line and its newline. -/
def renderStep (out : List Effect) (event : Event) : List Effect :=
  out ++ [Effect.stdout (renderLine event ++ "\n")]

/-- The loop `for _, event := range events` of lines 43-60, started with the
trace `out`. -/
def renderLoop (out : List Effect) (events : Events) : List Effect :=
  events.elems.foldl renderStep out

/-- The writes to standard output in a trace, in order. -/
def stdoutOf : List Effect → List String
  | [] => []
  | Effect.stdout s :: rest => s :: stdoutOf rest
  | _ :: rest => stdoutOf rest

/-- The messages handed to the logger in a trace, in order. -/
def logOf : List Effect → List String
  | [] => []
  | Effect.log s :: rest => s :: logOf rest
  | _ :: rest => logOf rest

/-- The number of entries into `fetchUserActivity` recorded in a trace. -/
def fetchCalls : List Effect → Nat
  | [] => 0
  | Effect.enter fn :: rest => (if fn = "fetchUserActivity" then 1 else 0) + fetchCalls rest
  | _ :: rest => fetchCalls rest

/-- The HTTP round trips recorded in a trace, in order, each as the method
and the URL string its request was built from. -/
def httpCallsOf : List Effect → List (String × String)
  | [] => []
  | Effect.httpDo m u :: rest => (m, u) :: httpCallsOf rest
  | _ :: rest => httpCallsOf rest

/-! ## `net/url`: `Values.Add`, `Values.Encode`, `QueryEscape` -/

/-- Go `url.Values` (`map[string][]string`) as an association list with
distinct keys. -/
abbrev Values := List (String × List String)

/-- Go `Values.Add`: append `value` to the values stored under `key`. -/
def Values.Add : Values → String → String → Values
  | [], key, value => [(key, [value])]
  | (k, vs) :: rest, key, value =>
    if k = key then (k, vs ++ [value]) :: rest
    else (k, vs) :: Values.Add rest key value

/-- Go `Values.Get`-like lookup of all values under a key. -/
def Values.valuesOf : Values → String → List String
  | [], _ => []
  | (k, vs) :: rest, key => if k = key then vs else Values.valuesOf rest key

/-- The byte is left alone by `QueryEscape`: Go `!shouldEscape(c, encodeQueryComponent)`,
true exactly for ASCII letters, digits and `-`, `_`, `.`, `~`. -/
def unreserved (c : Char) : Bool :=
  c.isAlphanum || c == '-' || c == '_' || c == '.' || c == '~'

/-- The digit of Go's `upperhex` table at index `n`. -/
def upperhex (n : Nat) : Char :=
  ['0', '1', '2', '3', '4', '5', '6', '7', '8', '9', 'A', 'B', 'C', 'D', 'E', 'F'].getD n '0'

/-- The three characters `%XX` that replace an escaped byte. -/
def escapeByte (b : UInt8) : List Char :=
  ['%', upperhex (b.toNat / 16), upperhex (b.toNat % 16)]

/-- What `QueryEscape` writes for one character of its input: the character
itself when unreserved, `+` for a space, and `%XX` for each of its UTF-8 bytes
otherwise. -/
def escapeChar (c : Char) : List Char :=
  if unreserved c then [c]
  else if c = ' ' then ['+']
  else (String.utf8EncodeChar c).flatMap escapeByte

/-- Go `url.QueryEscape`. -/
def QueryEscape (s : String) : String :=
  ⟨s.data.flatMap escapeChar⟩

/-- Go `Values.Encode`: keys in sorted order, every value of a key written as
`key=value` with both sides escaped, the pieces joined by `&`. -/
def Values.Encode (v : Values) : String :=
  let keys := (v.map Prod.fst).insertionSort (fun a b => a < b ∨ a = b)
  "&".intercalate
    (keys.flatMap fun k => (Values.valuesOf v k).map fun x => QueryEscape k ++ "=" ++ QueryEscape x)

/-! ## `net/url`: `Parse` and `URL.RequestURI` -/

/-- The UTF-8 encoding of the code point `v`, as byte values. -/
def utf8 (v : Nat) : List Nat :=
  if v ≤ 0x7f then [v]
  else if v ≤ 0x7ff then [0xc0 + v / 64, 0x80 + v % 64]
  else if v ≤ 0xffff then [0xe0 + v / 4096, 0x80 + v / 64 % 64, 0x80 + v % 64]
  else [0xf0 + v / 262144, 0x80 + v / 4096 % 64, 0x80 + v / 64 % 64, 0x80 + v % 64]

/-- The bytes of a Go string holding the text `s`. The functions of `net/url`
work on these bytes. -/
def goBytes (s : String) : List Nat :=
  s.data.flatMap fun c => utf8 c.toNat

/-- Go `strings.Cut(s, sep)` for a one-byte separator: the part before the
first `sep` and the part after it (all of `s` and nothing when `sep` does not
occur). -/
def cutByte (sep : Nat) (s : List Nat) : List Nat × List Nat :=
  (s.takeWhile (fun b => b != sep), (s.dropWhile (fun b => b != sep)).drop 1)

/-- The escaping modes of `net/url` that `Parse` uses outside
`parseAuthority`. -/
inductive encoding where
  | encodePath
  | encodeFragment
  deriving DecidableEq, Repr

/-- ASCII letter or digit. -/
def isAlnum (c : Nat) : Bool :=
  (97 ≤ c && c ≤ 122) || (65 ≤ c && c ≤ 90) || (48 ≤ c && c ≤ 57)

/-- Go `shouldEscape(c, mode)` of `net/url` for the two modes of `encoding`. -/
def shouldEscape (c : Nat) (mode : encoding) : Bool :=
  if isAlnum c then false
  else if c ∈ ['-'.toNat, '_'.toNat, '.'.toNat, '~'.toNat] then false
  else if c ∈ ['$'.toNat, '&'.toNat, '+'.toNat, ','.toNat, '/'.toNat, ':'.toNat, ';'.toNat,
      '='.toNat, '?'.toNat, '@'.toNat] then
    match mode with
    | encoding.encodePath => c == '?'.toNat
    | encoding.encodeFragment => false
  else if mode = encoding.encodeFragment ∧ c ∈ ['!'.toNat, '('.toNat, ')'.toNat, '*'.toNat] then
    false
  else true

/-- Go `ishex`. -/
def ishex (c : Nat) : Bool :=
  (48 ≤ c && c ≤ 57) || (97 ≤ c && c ≤ 102) || (65 ≤ c && c ≤ 70)

/-- Go `unhex`. -/
def unhex (c : Nat) : Nat :=
  if 48 ≤ c ∧ c ≤ 57 then c - 48
  else if 97 ≤ c ∧ c ≤ 102 then c - 97 + 10
  else if 65 ≤ c ∧ c ≤ 70 then c - 65 + 10
  else 0

/-- Go `unescape(s, mode)` for the modes of `encoding`, between which it
makes no difference: every `%XX` becomes the byte it names, every other byte
stays; `none` stands for the `EscapeError` returned when a `%` is not followed
by two hex digits. -/
def unescape : List Nat → Option (List Nat)
  | [] => some []
  | c :: rest =>
    if c = '%'.toNat then
      match rest with
      | h1 :: h2 :: rest2 =>
        if ishex h1 && ishex h2 then
          (unescape rest2).map fun t => (unhex h1 * 16 + unhex h2) :: t
        else none
      | _ => none
    else (unescape rest).map fun t => c :: t

/-- Go `escape(s, mode)` for the modes of `encoding`: every byte that
`shouldEscape` names becomes `%XX`. -/
def escape (s : List Nat) (mode : encoding) : List Nat :=
  s.flatMap fun c =>
    if shouldEscape c mode then ['%'.toNat, (upperhex (c / 16)).toNat, (upperhex (c % 16)).toNat]
    else [c]

/-- Go `validEncoded(s, mode)`; 39 is the apostrophe. -/
def validEncoded (s : List Nat) (mode : encoding) : Bool :=
  s.all fun c =>
    c ∈ ['!'.toNat, '$'.toNat, '&'.toNat, 39, '('.toNat, ')'.toNat, '*'.toNat, '+'.toNat,
        ','.toNat, ';'.toNat, '='.toNat, ':'.toNat, '@'.toNat, '['.toNat, ']'.toNat, '%'.toNat]
      || !shouldEscape c mode

/-- Go `url.Userinfo`. -/
structure Userinfo where
  username : List Nat
  password : List Nat
  passwordSet : Bool
  deriving DecidableEq, Repr

/-- Go `url.URL`; the strings are kept as bytes. -/
structure URL where
  Scheme : List Nat
  Opaque : List Nat
  User : Option Userinfo
  Host : List Nat
  Path : List Nat
  RawPath : List Nat
  OmitHost : Bool
  ForceQuery : Bool
  RawQuery : List Nat
  Fragment : List Nat
  RawFragment : List Nat
  deriving DecidableEq, Repr

/-- The zero value of `url.URL`. -/
def URL.zero : URL := ⟨[], [], none, [], [], [], false, false, [], [], []⟩

/-- Go `stringContainsCTLByte`. -/
def stringContainsCTLByte (s : List Nat) : Bool :=
  s.any fun b => b < 32 || b == 127

/-- The loop of Go `getScheme`, `seen` being the bytes before the current
one: the scheme and the rest after its colon; an empty scheme and all of
`rawURL` when there is no scheme; `none` for the error of a leading colon. -/
def getSchemeLoop (rawURL : List Nat) : List Nat → List Nat → Option (List Nat × List Nat)
  | _, [] => some ([], rawURL)
  | seen, c :: rest =>
    if (97 ≤ c ∧ c ≤ 122) ∨ (65 ≤ c ∧ c ≤ 90) then getSchemeLoop rawURL (seen ++ [c]) rest
    else if (48 ≤ c ∧ c ≤ 57) ∨ c = '+'.toNat ∨ c = '-'.toNat ∨ c = '.'.toNat then
      if seen = [] then some ([], rawURL) else getSchemeLoop rawURL (seen ++ [c]) rest
    else if c = ':'.toNat then
      if seen = [] then none else some (seen, rest)
    else some ([], rawURL)

/-- Go `getScheme`. -/
def getScheme (rawURL : List Nat) : Option (List Nat × List Nat) :=
  getSchemeLoop rawURL [] rawURL

/-- Go `strings.ToLower` on a scheme, which holds ASCII bytes only. -/
def toLower (s : List Nat) : List Nat :=
  s.map fun c => if 65 ≤ c ∧ c ≤ 90 then c + 32 else c

/-- Go `(*URL).setPath`. -/
def URL.setPath (u : URL) (p : List Nat) : Option URL :=
  match unescape p with
  | none => none
  | some path =>
    if p = escape path encoding.encodePath then some { u with Path := path, RawPath := [] }
    else some { u with Path := path, RawPath := p }

/-- Go `(*URL).setFragment`. -/
def URL.setFragment (u : URL) (f : List Nat) : Option URL :=
  match unescape f with
  | none => none
  | some frag =>
    if f = escape frag encoding.encodeFragment then
      some { u with Fragment := frag, RawFragment := [] }
    else some { u with Fragment := frag, RawFragment := f }

/-- Go `parse(rawURL, viaRequest)` of `net/url`; `none` when it returns an
error. The function `parseAuthority` of the library is the parameter
`parseAuthority`. -/
def parse (parseAuthority : List Nat → Option (Option Userinfo × List Nat))
    (rawURL : List Nat) (viaRequest : Bool) : Option URL :=
  if stringContainsCTLByte rawURL then none
  else if rawURL = [] ∧ viaRequest then none
  else if rawURL = ['*'.toNat] then some { URL.zero with Path := ['*'.toNat] }
  else
    match getScheme rawURL with
    | none => none
    | some (scheme, rest0) =>
      let url : URL := { URL.zero with Scheme := toLower scheme }
      let forceQuery : Bool :=
        rest0.getLast? = some '?'.toNat ∧ rest0.count '?'.toNat = 1
      let rest1 := if forceQuery then rest0.dropLast else (cutByte '?'.toNat rest0).1
      let url : URL :=
        if forceQuery then { url with ForceQuery := true }
        else { url with RawQuery := (cutByte '?'.toNat rest0).2 }
      if rest1.head? ≠ some '/'.toNat ∧ url.Scheme ≠ [] then
        some { url with Opaque := rest1 }
      else if rest1.head? ≠ some '/'.toNat ∧ viaRequest then none
      else if rest1.head? ≠ some '/'.toNat ∧ ':'.toNat ∈ (cutByte '/'.toNat rest1).1 then none
      else if (url.Scheme ≠ [] ∨ (!viaRequest ∧ rest1.take 3 ≠ ['/'.toNat, '/'.toNat, '/'.toNat]))
          ∧ rest1.take 2 = ['/'.toNat, '/'.toNat] then
        let authority := (rest1.drop 2).takeWhile (fun b => b != '/'.toNat)
        let rest2 := (rest1.drop 2).dropWhile (fun b => b != '/'.toNat)
        match parseAuthority authority with
        | none => none
        | some (user, host) => URL.setPath { url with User := user, Host := host } rest2
      else if url.Scheme ≠ [] ∧ rest1.head? = some '/'.toNat then
        URL.setPath { url with OmitHost := true } rest1
      else URL.setPath url rest1

/-- Go `url.Parse`; `none` when it returns an error. -/
def Parse (parseAuthority : List Nat → Option (Option Userinfo × List Nat))
    (rawURL : List Nat) : Option URL :=
  match parse parseAuthority (cutByte '#'.toNat rawURL).1 false with
  | none => none
  | some url =>
    if (cutByte '#'.toNat rawURL).2 = [] then some url
    else URL.setFragment url (cutByte '#'.toNat rawURL).2

/-- Go `(*URL).EscapedPath`. -/
def URL.EscapedPath (u : URL) : List Nat :=
  if u.RawPath ≠ [] ∧ validEncoded u.RawPath encoding.encodePath ∧ unescape u.RawPath = some u.Path then
    u.RawPath
  else if u.Path = ['*'.toNat] then ['*'.toNat]
  else escape u.Path encoding.encodePath

/-- Go `(*URL).RequestURI`: the request target that `net/http` writes for a
request with this URL. -/
def URL.RequestURI (u : URL) : List Nat :=
  let result :=
    if u.Opaque = [] then (if u.EscapedPath = [] then ['/'.toNat] else u.EscapedPath)
    else if u.Opaque.take 2 = ['/'.toNat, '/'.toNat] then u.Scheme ++ [':'.toNat] ++ u.Opaque
    else u.Opaque
  if u.ForceQuery ∨ u.RawQuery ≠ [] then result ++ ['?'.toNat] ++ u.RawQuery else result

/-- Bytes that every part of a URL leaves alone: ASCII letters, digits and
`-`, `_`, `.`, `~`. -/
def safeByte (b : Nat) : Bool :=
  isAlnum b || b == '-'.toNat || b == '_'.toNat || b == '.'.toNat || b == '~'.toNat

/-! ## The fetch (`fetchUserActivity`, lines 63-95) -/

/-- A Go `http.Request` built by `http.NewRequest(method, url, nil)`,
identified by the two arguments it was built from. `RawURL` is the string the
program passed, not the URL that is requested: the library runs `url.Parse`
on it (see `Parse`) and sends `URL.RequestURI` of the result. -/
structure Request where
  Method : String
  RawURL : String
  deriving DecidableEq, Repr

/-- Go `http.Response`, as far as the program reads it. -/
structure Response where
  StatusCode : Int
  Body : String
  deriving DecidableEq, Repr

/-- Go `http.StatusOK`. -/
def StatusOK : Int := 200

/-- The library calls of `fetchUserActivity`, as functions of their inputs.
`decodeEventError` and `decodeEvents` give the value left in the target
variable by `Decode` together with the error it returns: on an error the
variable may have been filled in part. -/
structure World where
  /-- The error of `http.NewRequest(method, url, nil)`, if any. -/
  newRequestErr : String → String → Option GoError
  /-- The call `client.Do(req)`, as a function of the arguments `req` was
  built from. -/
  clientDo : Request → Except GoError Response
  /-- The call `json.NewDecoder(body).Decode(&eventErr)`. -/
  decodeEventError : String → EventError × Option GoError
  /-- The call `json.NewDecoder(body).Decode(&events)`. -/
  decodeEvents : String → Events × Option GoError

/-- Go `http.NewRequest(method, url, nil)`: the error of the library, or the
request for these two arguments. -/
def NewRequest (w : World) (method url : String) : Except GoError Request :=
  match w.newRequestErr method url with
  | some err => Except.error err
  | none => Except.ok ⟨method, url⟩

/-- The string `urlWithParams` of lines 64-66. -/
def urlWithParams (app : application) : String :=
  let values : Values := Values.Add [] "per_page" (fmtD app.resultsPerPage)
  "https://api.github.com/users/" ++ app.user ++ "/events?" ++ Values.Encode values

/-- The text of the error built at line 85. -/
def remoteErrorText (eventErr : EventError) : String :=
  "error: " ++ eventErr.Message ++ " (statusCode: " ++ eventErr.Status ++
    "), check documentation: " ++ eventErr.DocumentationURL

/-- What `fetchUserActivity` returns, and the trace of what it did. -/
structure FetchResult where
  events : Events
  err : Option GoError
  trace : List Effect
  deriving DecidableEq, Repr

/-- The method `fetchUserActivity` of lines 63-95. -/
def fetchUserActivity (w : World) (app : application) : FetchResult :=
  let entered := [Effect.enter "fetchUserActivity"]
  match NewRequest w "GET" (urlWithParams app) with
  | Except.error err => ⟨none, some err, entered⟩
  | Except.ok req =>
    let called := entered ++ [Effect.httpDo req.Method req.RawURL]
    match w.clientDo req with
    | Except.error err => ⟨none, some err, called⟩
    | Except.ok resp =>
      if resp.StatusCode ≠ StatusOK then
        match w.decodeEventError resp.Body with
        | (_, some err) => ⟨none, some err, called⟩
        | (eventErr, none) => ⟨none, some (errorsNew (remoteErrorText eventErr)), called⟩
      else
        match w.decodeEvents resp.Body with
        | (_, some err) => ⟨none, some err, called⟩
        | (events, none) => ⟨events, none, called⟩

/-! ## The program (`main`, lines 20-61) -/

/-- How the process ends: `main` returns, or `os.Exit code` is called. -/
inductive Termination where
  | returned
  | osExit (code : Int)
  deriving DecidableEq, Repr

/-- The exit status the operating system sees. -/
def Termination.status : Termination → Int
  | Termination.returned => 0
  | Termination.osExit code => code

/-- A finished run: what it did, and how it ended. -/
structure Outcome where
  trace : List Effect
  ending : Termination
  deriving DecidableEq, Repr

/-- The message of line 40 for the queried user. -/
def noContributions (user : String) : String :=
  "No contributions found for the GitHub user '" ++ user ++
    "'. It appears they have not made any public contributions recently or their activity is private.\n"

/-- The function `main` from line 28 on, with the flags already parsed into
`app`. `log.Fatal err` is the logger message `err.Error()` followed by
`os.Exit(1)`. -/
def main (w : World) (app : application) : Outcome :=
  if app.user = "" then
    ⟨[Effect.log "github username is required to fetch user activity\n"], Termination.osExit 0⟩
  else
    let r := fetchUserActivity w app
    match r.err with
    | some err => ⟨r.trace ++ [Effect.log err.text], Termination.osExit 1⟩
    | none =>
      let out := r.trace ++ [Effect.stdout "Output:\n"]
      if r.events.len = 0 then
        ⟨out ++ [Effect.log (noContributions app.user)], Termination.osExit 0⟩
      else
        ⟨renderLoop out r.events, Termination.returned⟩

/-- The trace of a fetch that reached `client.Do`. -/
def calledTrace (app : application) : List Effect :=
  [Effect.enter "fetchUserActivity", Effect.httpDo "GET" (urlWithParams app)]

/-! ## Sample values -/

/-- A user with the given login. -/
def sampleUser (login : String) : User := ⟨1, login, "", "", "", "", ""⟩

/-- A commit with the given message. -/
def sampleCommit (message : String) : Commit := ⟨"", ⟨"", ""⟩, message, true, ""⟩

/-- A payload with two commits whose `size` and `distinct_size` say otherwise,
an issue opened by `alice` and a pull request opened by `bob`. -/
def samplePayload : Payload :=
  ⟨"", 0, 0, 7, 9, "", "", "", some [sampleCommit "one", sampleCommit "two"],
    ⟨sampleUser "alice"⟩, ⟨sampleUser "bob"⟩⟩

/-- An event of repository `octo/repo` with the given type tag. -/
def sampleEvent (tag : String) : Event :=
  ⟨"1", tag, sampleUser "carol", ⟨1, "octo/repo", ""⟩, samplePayload, true, ⟨0⟩,
    ⟨0, "", "", "", ""⟩⟩

/-- The error body of the 404 example. -/
def bodyNotFound : String :=
  "\x7b\"message\":\"Not Found\",\"documentation_url\":\"https://docs.example/x\",\"status\":\"404\"\x7d"

/-- A success body cut off after its first event. -/
def bodyTruncated : String := "[\x7b\"type\":\"WatchEvent\"\x7d,"

/-- A world in which every request is accepted and answered by `reply`, with
decoders defined on the few bodies the examples use: `bodyNotFound` decodes to
its three fields, `[]` and `null` to the empty and the nil list, `[W]` to one
event, and `bodyTruncated` fails after one event was stored. -/
def sampleWorld (reply : Except GoError Response) : World where
  newRequestErr := fun _ _ => none
  clientDo := fun _ => reply
  decodeEventError := fun body =>
    if body = bodyNotFound then (⟨"Not Found", "https://docs.example/x", "404"⟩, none)
    else (⟨"", "", ""⟩, some ⟨"invalid character"⟩)
  decodeEvents := fun body =>
    if body = "[]" then (some [], none)
    else if body = "null" then (none, none)
    else if body = "[W]" then (some [sampleEvent "WatchEvent"], none)
    else if body = bodyTruncated then (some [sampleEvent "WatchEvent"], some ⟨"unexpected EOF"⟩)
    else (none, some ⟨"invalid character"⟩)

/-- What `parseAuthority` of `net/url` returns for an authority that is a
plain host name such as `api.github.com`: no user, the host as written. -/
def plainHost (authority : List Nat) : Option (Option Userinfo × List Nat) :=
  some (none, authority)

/-- The configuration `--user octocat` with the default page size. -/
def sampleApp : application := ⟨"octocat", 30⟩

/-! ## Auxiliary facts -/

theorem stdoutOf_append (a b : List Effect) : stdoutOf (a ++ b) = stdoutOf a ++ stdoutOf b := by
  induction a with
  | nil => rfl
  | cons x xs ih => cases x <;> simp [stdoutOf, ih]

theorem logOf_append (a b : List Effect) : logOf (a ++ b) = logOf a ++ logOf b := by
  induction a with
  | nil => rfl
  | cons x xs ih => cases x <;> simp [logOf, ih]

theorem fetchCalls_append (a b : List Effect) : fetchCalls (a ++ b) = fetchCalls a + fetchCalls b := by
  induction a with
  | nil => simp [fetchCalls]
  | cons x xs ih => cases x <;> simp [fetchCalls, ih, Nat.add_assoc]

theorem httpCallsOf_append (a b : List Effect) :
    httpCallsOf (a ++ b) = httpCallsOf a ++ httpCallsOf b := by
  induction a with
  | nil => rfl
  | cons x xs ih => cases x <;> simp [httpCallsOf, ih]

/-- The writes of a block of rendered lines are those lines. -/
theorem stdoutOf_lines (es : List Event) :
    stdoutOf (es.map fun e => Effect.stdout (renderLine e ++ "\n")) =
      es.map fun e => renderLine e ++ "\n" := by
  induction es with
  | nil => rfl
  | cons e es ih => simp [stdoutOf, ih]

theorem logOf_lines (es : List Event) :
    logOf (es.map fun e => Effect.stdout (renderLine e ++ "\n")) = [] := by
  induction es with
  | nil => rfl
  | cons e es ih => simp [logOf, ih]

theorem fetchCalls_lines (es : List Event) :
    fetchCalls (es.map fun e => Effect.stdout (renderLine e ++ "\n")) = 0 := by
  induction es with
  | nil => rfl
  | cons e es ih => simp [fetchCalls, ih]

/-- The loop appends one write per event to the trace it starts from. -/
theorem renderLoop_eq (out : List Effect) (events : Events) :
    renderLoop out events =
      out ++ events.elems.map fun e => Effect.stdout (renderLine e ++ "\n") := by
  unfold renderLoop
  generalize events.elems = es
  induction es generalizing out with
  | nil => simp
  | cons e es ih => simp [List.foldl_cons, ih, renderStep]

/-- In every outcome the fetch trace is the entry mark, followed by at most
one round trip, a GET of `urlWithParams`. -/
theorem fetch_trace (w : World) (app : application) :
    (fetchUserActivity w app).trace = [Effect.enter "fetchUserActivity"] ∨
    (fetchUserActivity w app).trace =
      [Effect.enter "fetchUserActivity", Effect.httpDo "GET" (urlWithParams app)] := by
  unfold fetchUserActivity NewRequest
  cases h1 : w.newRequestErr "GET" (urlWithParams app) with
  | some err => simp
  | none =>
    right
    simp only []
    cases h2 : w.clientDo ⟨"GET", urlWithParams app⟩ with
    | error err => simp
    | ok resp =>
      simp only []
      split
      · split <;> simp
      · split <;> simp

theorem fetch_stdout (w : World) (app : application) :
    stdoutOf (fetchUserActivity w app).trace = [] := by
  rcases fetch_trace w app with h | h <;> rw [h] <;> rfl

theorem fetch_log (w : World) (app : application) :
    logOf (fetchUserActivity w app).trace = [] := by
  rcases fetch_trace w app with h | h <;> rw [h] <;> rfl

theorem fetch_calls (w : World) (app : application) :
    fetchCalls (fetchUserActivity w app).trace = 1 := by
  rcases fetch_trace w app with h | h <;> rw [h] <;> simp [fetchCalls]

/-! ### The request URL -/

theorem unreserved_digitChar : ∀ k, k < 10 → unreserved (Nat.digitChar k) = true := by decide

theorem toDigitsCore_unreserved (fuel : Nat) :
    ∀ (n : Nat) (acc : List Char), (∀ c ∈ acc, unreserved c = true) →
      ∀ c ∈ Nat.toDigitsCore 10 fuel n acc, unreserved c = true := by
  induction fuel with
  | zero => intro n acc h; simpa [Nat.toDigitsCore] using h
  | succ fuel ih =>
    intro n acc h
    have hd : unreserved (Nat.digitChar (n % 10)) = true :=
      unreserved_digitChar _ (Nat.mod_lt _ (by decide))
    have hacc : ∀ c ∈ Nat.digitChar (n % 10) :: acc, unreserved c = true := by
      intro c hc
      rcases List.mem_cons.mp hc with rfl | hc
      · exact hd
      · exact h c hc
    simp only [Nat.toDigitsCore]
    split
    · exact hacc
    · exact ih _ _ hacc

theorem repr_unreserved (n : Nat) : ∀ c ∈ (Nat.repr n).data, unreserved c = true := by
  simpa [Nat.repr, Nat.toDigits, List.asString] using
    toDigitsCore_unreserved (n + 1) n [] (by simp)

theorem flatMap_escapeChar (l : List Char) (h : ∀ c ∈ l, unreserved c = true) :
    l.flatMap escapeChar = l := by
  induction l with
  | nil => rfl
  | cons c cs ih =>
    have hc : unreserved c = true := h c (List.mem_cons_self _ _)
    have hcs : ∀ d ∈ cs, unreserved d = true := fun d hd => h d (List.mem_cons_of_mem _ hd)
    simp [List.flatMap_cons, escapeChar, hc, ih hcs]

theorem fmtD_unreserved (n : Int) : ∀ c ∈ (fmtD n).data, unreserved c = true := by
  cases n with
  | ofNat k => exact repr_unreserved k
  | negSucc k =>
    intro c hc
    simp only [fmtD, String.data_append] at hc
    rcases List.mem_append.mp hc with hc | hc
    · have : c = '-' := by simpa using hc
      subst this; decide
    · exact repr_unreserved _ c hc

theorem QueryEscape_fmtD (n : Int) : QueryEscape (fmtD n) = fmtD n := by
  unfold QueryEscape
  rw [flatMap_escapeChar _ (fmtD_unreserved n)]

theorem Encode_single (v : String) :
    Values.Encode (Values.Add [] "per_page" v) = "per_page=" ++ QueryEscape v := by
  have hk : QueryEscape "per_page" = "per_page" := by decide
  simp [Values.Encode, Values.Add, Values.valuesOf, String.intercalate, String.intercalate.go, hk]

theorem urlWithParams_eq (app : application) :
    urlWithParams app =
      "https://api.github.com/users/" ++ app.user ++ "/events?per_page=" ++ fmtD app.resultsPerPage := by
  unfold urlWithParams
  have hlit : "/events?" ++ "per_page=" = "/events?per_page=" := by decide
  simp only [Encode_single, QueryEscape_fmtD]
  simp only [String.append_assoc]
  rw [← String.append_assoc "/events?" "per_page=", hlit]

/-! ### The parse of the request URL -/

theorem safeByte_of_range (b lo hi : Nat) (hlo : lo ≤ b) (hhi : b ≤ hi)
    (h : (97 ≤ lo ∧ hi ≤ 122) ∨ (65 ≤ lo ∧ hi ≤ 90) ∨ (48 ≤ lo ∧ hi ≤ 57)) :
    safeByte b = true := by
  have : isAlnum b = true := by
    simp only [isAlnum, Bool.or_eq_true, Bool.and_eq_true, decide_eq_true_eq]
    omega
  simp [safeByte, this]

theorem unreserved_toNat (c : Char) (h : unreserved c = true) : safeByte c.toNat = true := by
  simp only [unreserved, Char.isAlphanum, Char.isAlpha, Char.isUpper, Char.isLower, Char.isDigit,
    Bool.or_eq_true, Bool.and_eq_true, decide_eq_true_eq, beq_iff_eq, ge_iff_le] at h
  rcases h with (((((⟨h1, h2⟩ | ⟨h1, h2⟩) | ⟨h1, h2⟩) | h) | h) | h) | h
  · exact safeByte_of_range _ 65 90 (UInt32.le_toNat_of_le (by decide) h1)
      (UInt32.toNat_le_of_le (by decide) h2) (by omega)
  · exact safeByte_of_range _ 97 122 (UInt32.le_toNat_of_le (by decide) h1)
      (UInt32.toNat_le_of_le (by decide) h2) (by omega)
  · exact safeByte_of_range _ 48 57 (UInt32.le_toNat_of_le (by decide) h1)
      (UInt32.toNat_le_of_le (by decide) h2) (by omega)
  all_goals subst h; decide

/-- What being a safe byte means in numbers. -/
theorem safeByte_cases (b : Nat) (h : safeByte b = true) :
    (97 ≤ b ∧ b ≤ 122) ∨ (65 ≤ b ∧ b ≤ 90) ∨ (48 ≤ b ∧ b ≤ 57) ∨ b = 45 ∨ b = 95 ∨ b = 46 ∨
      b = 126 := by
  simp only [safeByte, isAlnum, Bool.or_eq_true, Bool.and_eq_true, decide_eq_true_eq,
    beq_iff_eq, Char.reduceToNat] at h
  omega

theorem goBytes_append (a b : String) : goBytes (a ++ b) = goBytes a ++ goBytes b := by
  simp [goBytes, String.data_append]

/-- A string of unreserved characters is, as bytes, its characters one by
one, all of them safe. -/
theorem goBytes_unreserved (s : String) (h : ∀ c ∈ s.data, unreserved c = true) :
    ∀ b ∈ goBytes s, safeByte b = true := by
  intro b hb
  simp only [goBytes, List.mem_flatMap] at hb
  obtain ⟨c, hc, hbc⟩ := hb
  have hs := unreserved_toNat c (h c hc)
  have hle : c.toNat ≤ 0x7f := by
    have := safeByte_cases _ hs
    omega
  simp only [utf8, hle, if_true, List.mem_singleton] at hbc
  rw [hbc]; exact hs

theorem cutByte_absent (sep : Nat) (l : List Nat) (h : ∀ b ∈ l, b ≠ sep) :
    cutByte sep l = (l, []) := by
  have h1 : l.takeWhile (fun b => b != sep) = l := by
    rw [List.takeWhile_eq_self_iff]
    intro b hb; simpa using h b hb
  have h2 : l.dropWhile (fun b => b != sep) = [] := by
    rw [List.dropWhile_eq_nil_iff]
    intro b hb; simpa using h b hb
  simp [cutByte, h1, h2]

theorem cutByte_first (sep : Nat) (l r : List Nat) (h : ∀ b ∈ l, b ≠ sep) :
    cutByte sep (l ++ sep :: r) = (l, r) := by
  have hp : ∀ b ∈ l, (fun b => b != sep) b = true := by
    intro b hb; simpa using h b hb
  simp [cutByte, List.takeWhile_append_of_pos hp, List.dropWhile_append_of_pos hp]

theorem unescape_plain (l : List Nat) (h : ∀ b ∈ l, b ≠ 37) : unescape l = some l := by
  induction l with
  | nil => rfl
  | cons c cs ih =>
    have hc : c ≠ 37 := h c (List.mem_cons_self _ _)
    have hcs := ih fun b hb => h b (List.mem_cons_of_mem _ hb)
    rw [unescape.eq_def]
    simp [hc, hcs]

theorem escape_plain (mode : encoding) (l : List Nat)
    (h : ∀ b ∈ l, shouldEscape b mode = false) : escape l mode = l := by
  induction l with
  | nil => rfl
  | cons c cs ih =>
    have hc := h c (List.mem_cons_self _ _)
    have hcs := ih fun b hb => h b (List.mem_cons_of_mem _ hb)
    simp only [escape, List.flatMap_cons] at hcs ⊢
    rw [hcs]
    simp [hc]

theorem shouldEscape_path_safe (b : Nat) (h : safeByte b = true ∨ b = 47) :
    shouldEscape b encoding.encodePath = false := by
  rcases h with h | h
  · have := safeByte_cases b h
    simp only [shouldEscape, isAlnum, Char.reduceToNat]
    rcases this with h | h | h | h | h | h | h
    all_goals first
      | (subst h; decide)
      | (have hb : isAlnum b = true := by
            simp only [isAlnum, Bool.or_eq_true, Bool.and_eq_true, decide_eq_true_eq]; omega
         simp [isAlnum] at hb
         simp [hb])
  · subst h; decide

theorem safeByte_ne (b : Nat) (h : safeByte b = true ∨ b = 47 ∨ b = 61) :
    b ≠ 35 ∧ b ≠ 37 ∧ b ≠ 63 ∧ ¬ b < 32 ∧ b ≠ 127 := by
  rcases h with h | h | h
  · have := safeByte_cases b h
    omega
  · omega
  · omega

theorem getScheme_https (t : List Nat) :
    getScheme (goBytes "https:" ++ t) = some (goBytes "https", t) := by
  have h1 : goBytes "https:" = [104, 116, 116, 112, 115, 58] := by decide
  have h2 : goBytes "https" = [104, 116, 116, 112, 115] := by decide
  rw [h1, h2]
  simp [getScheme, getSchemeLoop]

theorem getLast?_after (x q : List Nat) (sep : Nat) (hq0 : q ≠ []) (hq : ∀ b ∈ q, b ≠ sep) :
    (x ++ sep :: q).getLast? ≠ some sep := by
  have h1 : x ++ sep :: q = (x ++ [sep]) ++ q := by simp
  rw [h1, List.getLast?_append, List.getLast?_eq_getLast q hq0]
  simp only [Option.or_some, ne_eq, Option.some.injEq]
  exact hq _ (List.getLast_mem hq0)

theorem Parse_events_url (pa : List Nat → Option (Option Userinfo × List Nat)) (host p q : List Nat)
    (hpa : pa (goBytes "api.github.com") = some (none, host))
    (hp : ∀ b ∈ p, safeByte b = true ∨ b = 47)
    (hq : ∀ b ∈ q, safeByte b = true ∨ b = 61)
    (hq0 : q ≠ []) :
    Parse pa (goBytes "https://api.github.com/" ++ p ++ 63 :: q) =
      some { URL.zero with
        Scheme := goBytes "https", Host := host, Path := 47 :: p, RawQuery := q } := by
  have hp' : ∀ b ∈ p, b ≠ 35 ∧ b ≠ 37 ∧ b ≠ 63 ∧ ¬ b < 32 ∧ b ≠ 127 := fun b hb =>
    safeByte_ne b ((hp b hb).elim Or.inl fun h => Or.inr (Or.inl h))
  have hq' : ∀ b ∈ q, b ≠ 35 ∧ b ≠ 37 ∧ b ≠ 63 ∧ ¬ b < 32 ∧ b ≠ 127 := fun b hb =>
    safeByte_ne b ((hq b hb).elim Or.inl fun h => Or.inr (Or.inr h))
  have hpre : goBytes "https://api.github.com/" = goBytes "https:" ++ goBytes "//api.github.com/" := by
    decide
  have hrest : goBytes "//api.github.com/" =
      [47, 47, 97, 112, 105, 46, 103, 105, 116, 104, 117, 98, 46, 99, 111, 109, 47] := by decide
  have hhost : goBytes "api.github.com" =
      [97, 112, 105, 46, 103, 105, 116, 104, 117, 98, 46, 99, 111, 109] := by decide
  have hscheme : goBytes "https:" = [104, 116, 116, 112, 115, 58] := by decide
  -- the raw URL has no `#` and no control byte
  have hraw : ∀ b ∈ goBytes "https://api.github.com/" ++ p ++ 63 :: q,
      b ≠ 35 ∧ ¬ b < 32 ∧ b ≠ 127 := by
    intro b hb
    rw [hpre, hscheme, hrest] at hb
    simp only [List.mem_append, List.mem_cons, List.mem_nil_iff, or_false] at hb
    rcases hb with (hb | hb) | hb | hb
    · omega
    · exact ⟨(hp' b hb).1, (hp' b hb).2.2.2⟩
    · subst hb; decide
    · exact ⟨(hq' b hb).1, (hq' b hb).2.2.2⟩
  have hcut : cutByte 35 (goBytes "https://api.github.com/" ++ p ++ 63 :: q) =
      (goBytes "https://api.github.com/" ++ p ++ 63 :: q, []) :=
    cutByte_absent _ _ fun b hb => (hraw b hb).1
  have hctl : stringContainsCTLByte (goBytes "https://api.github.com/" ++ p ++ 63 :: q) = false := by
    simp only [stringContainsCTLByte, List.any_eq_false]
    intro b hb
    have := hraw b hb
    simp only [Bool.or_eq_true, decide_eq_true_eq, beq_iff_eq]
    omega
  have hsch : getScheme (goBytes "https://api.github.com/" ++ p ++ 63 :: q) =
      some (goBytes "https", goBytes "//api.github.com/" ++ p ++ 63 :: q) := by
    rw [hpre, List.append_assoc, List.append_assoc, getScheme_https, List.append_assoc]
  have hlower : toLower (goBytes "https") = goBytes "https" := by decide
  have hnonempty : goBytes "https" ≠ [] := by decide
  have hlast : (goBytes "//api.github.com/" ++ p ++ 63 :: q).getLast? ≠ some 63 :=
    getLast?_after _ q 63 hq0 fun b hb => (hq' b hb).2.2.1
  have hcutq : cutByte 63 (goBytes "//api.github.com/" ++ p ++ 63 :: q) =
      (goBytes "//api.github.com/" ++ p, q) := by
    apply cutByte_first
    intro b hb
    rw [hrest] at hb
    simp only [List.mem_append, List.mem_cons, List.mem_nil_iff, or_false] at hb
    rcases hb with hb | hb
    · omega
    · exact (hp' b hb).2.2.1
  have hunesc : unescape (47 :: p) = some (47 :: p) := by
    apply unescape_plain
    intro b hb
    rcases List.mem_cons.mp hb with hb | hb
    · omega
    · exact (hp' b hb).2.1
  have hesc : escape (47 :: p) encoding.encodePath = 47 :: p := by
    apply escape_plain
    intro b hb
    rcases List.mem_cons.mp hb with hb | hb
    · exact shouldEscape_path_safe b (Or.inr hb)
    · exact shouldEscape_path_safe b (hp b hb)
  have hauth : (List.drop 2 (goBytes "//api.github.com/" ++ p)).takeWhile (fun b => b != 47) =
      goBytes "api.github.com" := by
    rw [hrest, hhost]
    simp
  have hrest2 : (List.drop 2 (goBytes "//api.github.com/" ++ p)).dropWhile (fun b => b != 47) =
      47 :: p := by
    rw [hrest]
    simp
  have hhead : (goBytes "//api.github.com/" ++ p).head? = some 47 := by
    rw [hrest]; rfl
  have htake : (goBytes "//api.github.com/" ++ p).take 2 = [47, 47] := by
    rw [hrest]; rfl
  have hstar : goBytes "https://api.github.com/" ++ p ++ 63 :: q ≠ [42] := by
    rw [hpre, hscheme]; simp
  have hnil : goBytes "https://api.github.com/" ++ p ++ 63 :: q ≠ [] := by
    rw [hpre, hscheme]; simp
  simp only [Parse, hcut, parse, hctl, hsch, hlower, hlast, hcutq, hhead, htake, hauth, hrest2,
    hpa, URL.setPath, hunesc, hesc, Char.reduceToNat]
  simp only [false_and, decide_False, Bool.false_eq_true, if_false, ↓reduceIte, hstar, hnil,
    and_false, ne_eq, not_true_eq_false, hnonempty, not_false_eq_true, and_true, true_and,
    or_true, true_or, hhead, htake, hauth, hrest2, hpa, hunesc, hesc, URL.zero, Bool.not_false]

theorem RequestURI_events_url (scheme host p q : List Nat)
    (hp : ∀ b ∈ p, safeByte b = true ∨ b = 47) (hq0 : q ≠ []) :
    URL.RequestURI { URL.zero with Scheme := scheme, Host := host, Path := 47 :: p, RawQuery := q } =
      47 :: p ++ 63 :: q := by
  have hesc : escape (47 :: p) encoding.encodePath = 47 :: p := by
    apply escape_plain
    intro b hb
    rcases List.mem_cons.mp hb with hb | hb
    · exact shouldEscape_path_safe b (Or.inr hb)
    · exact shouldEscape_path_safe b (hp b hb)
  simp [URL.RequestURI, URL.EscapedPath, URL.zero, hesc, hq0]

/-- The bytes of the URL string, split where `Parse` splits them. -/
theorem goBytes_urlWithParams (u : String) (n : Int) :
    goBytes (urlWithParams ⟨u, n⟩) =
      goBytes "https://api.github.com/" ++ (goBytes "users/" ++ goBytes u ++ goBytes "/events") ++
        63 :: (goBytes "per_page=" ++ goBytes (fmtD n)) := by
  have h1 : goBytes "https://api.github.com/users/" =
      goBytes "https://api.github.com/" ++ goBytes "users/" := by decide
  have h2 : goBytes "/events?per_page=" = goBytes "/events" ++ 63 :: goBytes "per_page=" := by
    decide
  have hurl := urlWithParams_eq ⟨u, n⟩
  simp only [] at hurl
  rw [hurl]
  simp only [goBytes_append, h1, h2, List.append_assoc, List.cons_append]

theorem events_path_safe (u : String) (hu : ∀ c ∈ u.data, unreserved c = true) :
    ∀ b ∈ goBytes "users/" ++ goBytes u ++ goBytes "/events", safeByte b = true ∨ b = 47 := by
  intro b hb
  have h1 : goBytes "users/" = [117, 115, 101, 114, 115, 47] := by decide
  have h2 : goBytes "/events" = [47, 101, 118, 101, 110, 116, 115] := by decide
  rw [h1, h2] at hb
  simp only [List.mem_append, List.mem_cons, List.mem_nil_iff, or_false] at hb
  rcases hb with (hb | hb) | hb
  · by_cases h47 : b = 47
    · exact Or.inr h47
    · exact Or.inl (safeByte_of_range b b b (Nat.le_refl _) (Nat.le_refl _) (by omega))
  · exact Or.inl (goBytes_unreserved u hu b hb)
  · by_cases h47 : b = 47
    · exact Or.inr h47
    · exact Or.inl (safeByte_of_range b b b (Nat.le_refl _) (Nat.le_refl _) (by omega))

theorem events_query_safe (n : Int) :
    (∀ b ∈ goBytes "per_page=" ++ goBytes (fmtD n), safeByte b = true ∨ b = 61) ∧
      goBytes "per_page=" ++ goBytes (fmtD n) ≠ [] := by
  have h1 : goBytes "per_page=" = [112, 101, 114, 95, 112, 97, 103, 101, 61] := by decide
  refine ⟨?_, ?_⟩
  · intro b hb
    rw [h1] at hb
    simp only [List.mem_append, List.mem_cons, List.mem_nil_iff, or_false] at hb
    rcases hb with hb | hb
    · by_cases h61 : b = 61
      · exact Or.inr h61
      · by_cases h95 : b = 95
        · subst h95; exact Or.inl (by decide)
        · exact Or.inl (safeByte_of_range b b b (Nat.le_refl _) (Nat.le_refl _) (by omega))
    · exact Or.inl (goBytes_unreserved _ (fmtD_unreserved n) b hb)
  · rw [h1]; simp

/-! ### The outcomes of the fetch -/

theorem fetch_of_newRequest_err (w : World) (app : application) (e : GoError)
    (hreq : w.newRequestErr "GET" (urlWithParams app) = some e) :
    fetchUserActivity w app = ⟨none, some e, [Effect.enter "fetchUserActivity"]⟩ := by
  simp [fetchUserActivity, NewRequest, hreq]

theorem fetch_of_transport_err (w : World) (app : application) (e : GoError)
    (hreq : w.newRequestErr "GET" (urlWithParams app) = none)
    (hdo : w.clientDo ⟨"GET", urlWithParams app⟩ = Except.error e) :
    fetchUserActivity w app = ⟨none, some e, calledTrace app⟩ := by
  simp [fetchUserActivity, NewRequest, hreq, hdo, calledTrace]

theorem fetch_of_error_body_undecodable (w : World) (app : application) (resp : Response)
    (x : EventError) (e : GoError)
    (hreq : w.newRequestErr "GET" (urlWithParams app) = none)
    (hdo : w.clientDo ⟨"GET", urlWithParams app⟩ = Except.ok resp)
    (hstatus : resp.StatusCode ≠ StatusOK)
    (hdec : w.decodeEventError resp.Body = (x, some e)) :
    fetchUserActivity w app = ⟨none, some e, calledTrace app⟩ := by
  simp [fetchUserActivity, NewRequest, hreq, hdo, hstatus, hdec, calledTrace]

theorem fetch_of_remote_error (w : World) (app : application) (resp : Response)
    (eventErr : EventError)
    (hreq : w.newRequestErr "GET" (urlWithParams app) = none)
    (hdo : w.clientDo ⟨"GET", urlWithParams app⟩ = Except.ok resp)
    (hstatus : resp.StatusCode ≠ StatusOK)
    (hdec : w.decodeEventError resp.Body = (eventErr, none)) :
    fetchUserActivity w app =
      ⟨none, some (errorsNew (remoteErrorText eventErr)), calledTrace app⟩ := by
  simp [fetchUserActivity, NewRequest, hreq, hdo, hstatus, hdec, calledTrace]

theorem fetch_of_events_undecodable (w : World) (app : application) (resp : Response)
    (x : Events) (e : GoError)
    (hreq : w.newRequestErr "GET" (urlWithParams app) = none)
    (hdo : w.clientDo ⟨"GET", urlWithParams app⟩ = Except.ok resp)
    (hstatus : resp.StatusCode = StatusOK)
    (hdec : w.decodeEvents resp.Body = (x, some e)) :
    fetchUserActivity w app = ⟨none, some e, calledTrace app⟩ := by
  simp [fetchUserActivity, NewRequest, hreq, hdo, hstatus, hdec, calledTrace]

theorem fetch_of_events (w : World) (app : application) (resp : Response) (events : Events)
    (hreq : w.newRequestErr "GET" (urlWithParams app) = none)
    (hdo : w.clientDo ⟨"GET", urlWithParams app⟩ = Except.ok resp)
    (hstatus : resp.StatusCode = StatusOK)
    (hdec : w.decodeEvents resp.Body = (events, none)) :
    fetchUserActivity w app = ⟨events, none, calledTrace app⟩ := by
  simp [fetchUserActivity, NewRequest, hreq, hdo, hstatus, hdec, calledTrace]

/-- Every outcome of the fetch is a failure that carries the nil list, or the
list decoded without error from a response of status 200. -/
theorem fetch_cases (w : World) (app : application) :
    ((fetchUserActivity w app).events = none ∧ ∃ e, (fetchUserActivity w app).err = some e) ∨
    ((fetchUserActivity w app).err = none ∧
      ∃ resp, w.newRequestErr "GET" (urlWithParams app) = none ∧
        w.clientDo ⟨"GET", urlWithParams app⟩ = Except.ok resp ∧
        resp.StatusCode = StatusOK ∧
        w.decodeEvents resp.Body = ((fetchUserActivity w app).events, none)) := by
  cases hreq : w.newRequestErr "GET" (urlWithParams app) with
  | some e => left; rw [fetch_of_newRequest_err w app e hreq]; exact ⟨rfl, e, rfl⟩
  | none =>
    cases hdo : w.clientDo ⟨"GET", urlWithParams app⟩ with
    | error e => left; rw [fetch_of_transport_err w app e hreq hdo]; exact ⟨rfl, e, rfl⟩
    | ok resp =>
      by_cases hstatus : resp.StatusCode = StatusOK
      · rcases hdec : w.decodeEvents resp.Body with ⟨x, _ | e⟩
        · right
          rw [fetch_of_events w app resp x hreq hdo hstatus hdec]
          exact ⟨rfl, resp, rfl, rfl, hstatus, hdec⟩
        · left
          rw [fetch_of_events_undecodable w app resp x e hreq hdo hstatus hdec]
          exact ⟨rfl, e, rfl⟩
      · rcases hdec : w.decodeEventError resp.Body with ⟨x, _ | e⟩
        · left
          rw [fetch_of_remote_error w app resp x hreq hdo hstatus hdec]
          exact ⟨rfl, _, rfl⟩
        · left
          rw [fetch_of_error_body_undecodable w app resp x e hreq hdo hstatus hdec]
          exact ⟨rfl, e, rfl⟩

/-! ### The outcomes of `main` -/

theorem main_of_no_user (w : World) (app : application) (huser : app.user = "") :
    main w app =
      ⟨[Effect.log "github username is required to fetch user activity\n"],
        Termination.osExit 0⟩ := by
  simp [main, huser]

theorem main_of_fetch_err (w : World) (app : application) (e : GoError)
    (huser : app.user ≠ "") (herr : (fetchUserActivity w app).err = some e) :
    main w app =
      ⟨(fetchUserActivity w app).trace ++ [Effect.log e.text], Termination.osExit 1⟩ := by
  simp [main, huser, herr]

theorem main_of_no_events (w : World) (app : application)
    (huser : app.user ≠ "") (herr : (fetchUserActivity w app).err = none)
    (hlen : (fetchUserActivity w app).events.len = 0) :
    main w app =
      ⟨(fetchUserActivity w app).trace ++
          [Effect.stdout "Output:\n", Effect.log (noContributions app.user)],
        Termination.osExit 0⟩ := by
  simp [main, huser, herr, hlen]

theorem main_of_events (w : World) (app : application)
    (huser : app.user ≠ "") (herr : (fetchUserActivity w app).err = none)
    (hlen : (fetchUserActivity w app).events.len ≠ 0) :
    main w app =
      ⟨(fetchUserActivity w app).trace ++ Effect.stdout "Output:\n" ::
          (fetchUserActivity w app).events.elems.map
            (fun e => Effect.stdout (renderLine e ++ "\n")),
        Termination.returned⟩ := by
  simp [main, huser, herr, hlen, renderLoop_eq]

/-! ## The rendering contract -/

/-- C1: the rendering loop writes exactly one line per event, in input order:
started from any trace it appends the lines of the events and nothing else,
the number of lines written equals the number of events, and the i-th line is
the rendering of the i-th event alone. -/
theorem renderLoop_one_line_per_event (out : List Effect) (events : Events) (i : Nat) :
    renderLoop out events =
        out ++ events.elems.map (fun e => Effect.stdout (renderLine e ++ "\n")) ∧
      stdoutOf (renderLoop [] events) = events.elems.map (fun e => renderLine e ++ "\n") ∧
      (stdoutOf (renderLoop [] events)).length = events.len ∧
      (stdoutOf (renderLoop [] events))[i]? =
        (events.elems[i]?).map (fun e => renderLine e ++ "\n") := by
  have h := renderLoop_eq [] events
  simp only [List.nil_append] at h
  refine ⟨renderLoop_eq out events, ?_, ?_, ?_⟩
  · rw [h, stdoutOf_lines]
  · rw [h, stdoutOf_lines, List.length_map]
    cases events <;> rfl
  · rw [h, stdoutOf_lines, List.getElem?_map]

/-- C2, as stated, fails: a `WatchEvent` of `octo/repo` is rendered as
`- Starred octo/repo`, not as the bare template `Starred octo/repo`. -/
theorem renderLine_not_bare_template :
    (sampleEvent "WatchEvent").Type_ = "WatchEvent" ∧
      renderLine (sampleEvent "WatchEvent") ≠ "Starred " ++ (sampleEvent "WatchEvent").Repo.Name ∧
      renderLine (sampleEvent "WatchEvent") = "- Starred octo/repo" := by
  decide

/-- C2, amended: for each of the six known type tags the rendered line is the
bullet `- ` followed by the template of that tag filled with the fields of the
event. -/
theorem renderLine_known_tags (e : Event) :
    (e.Type_ = "PushEvent" →
        renderLine e =
          "- " ++ ("Pushed " ++ Nat.repr e.Payload.Commits.len ++ " commits to " ++ e.Repo.Name)) ∧
      (e.Type_ = "PullRequestEvent" →
        renderLine e =
          "- " ++ ("Pulled request from " ++ e.Payload.PullRequest.User.Login ++
            " branch into " ++ e.Repo.Name)) ∧
      (e.Type_ = "WatchEvent" → renderLine e = "- " ++ ("Starred " ++ e.Repo.Name)) ∧
      (e.Type_ = "IssuesEvent" → renderLine e = "- " ++ ("Opened a new issue in " ++ e.Repo.Name)) ∧
      (e.Type_ = "ForkEvent" → renderLine e = "- " ++ ("Forked " ++ e.Repo.Name)) ∧
      (e.Type_ = "IssueCommentEvent" →
        renderLine e =
          "- " ++ (e.Payload.Issue.User.Login ++ " commented on an issue in the " ++ e.Repo.Name)) := by
  refine ⟨?_, ?_, ?_, ?_, ?_, ?_⟩ <;> intro h <;>
    simp [renderLine, h, fmtD, ← String.append_assoc]

/-- Witness of C2 amended: one event of each known tag. -/
theorem renderLine_known_tags_witness :
    renderLine (sampleEvent "PushEvent") = "- Pushed 2 commits to octo/repo" ∧
      renderLine (sampleEvent "PullRequestEvent") =
        "- Pulled request from bob branch into octo/repo" ∧
      renderLine (sampleEvent "WatchEvent") = "- Starred octo/repo" ∧
      renderLine (sampleEvent "IssuesEvent") = "- Opened a new issue in octo/repo" ∧
      renderLine (sampleEvent "ForkEvent") = "- Forked octo/repo" ∧
      renderLine (sampleEvent "IssueCommentEvent") =
        "- alice commented on an issue in the octo/repo" :=
  ⟨(renderLine_known_tags (sampleEvent "PushEvent")).1 (by decide),
    (renderLine_known_tags (sampleEvent "PullRequestEvent")).2.1 (by decide),
    (renderLine_known_tags (sampleEvent "WatchEvent")).2.2.1 (by decide),
    (renderLine_known_tags (sampleEvent "IssuesEvent")).2.2.2.1 (by decide),
    (renderLine_known_tags (sampleEvent "ForkEvent")).2.2.2.2.1 (by decide),
    (renderLine_known_tags (sampleEvent "IssueCommentEvent")).2.2.2.2.2 (by decide)⟩

/-- C3: an event whose type tag is none of the six known tags is rendered as
exactly `- ...`, whatever its other fields are. -/
theorem renderLine_unknown_tag (e : Event)
    (h1 : e.Type_ ≠ "PushEvent") (h2 : e.Type_ ≠ "PullRequestEvent")
    (h3 : e.Type_ ≠ "WatchEvent") (h4 : e.Type_ ≠ "IssuesEvent")
    (h5 : e.Type_ ≠ "ForkEvent") (h6 : e.Type_ ≠ "IssueCommentEvent") :
    renderLine e = "- ..." := by
  simp [renderLine, h1, h2, h3, h4, h5, h6]

/-- Witness of C3: the tag `pushevent`, which differs from a known tag in
letter case only, and the empty tag. -/
theorem renderLine_unknown_tag_witness :
    renderLine (sampleEvent "pushevent") = "- ..." ∧ renderLine (sampleEvent "") = "- ..." :=
  ⟨renderLine_unknown_tag (sampleEvent "pushevent") (by decide) (by decide) (by decide)
      (by decide) (by decide) (by decide),
    renderLine_unknown_tag (sampleEvent "") (by decide) (by decide) (by decide)
      (by decide) (by decide) (by decide)⟩

/-- C4: a `PushEvent` whose payload holds `N` commits is rendered as the
bullet followed by `Pushed N commits to <repo.name>`, `N` in decimal; a payload
without commits gives `0`; and the fields `Size` and `DistinctSize` of the
payload have no influence on the line. -/
theorem renderLine_push_count (e : Event) (N : Nat) (size distinctSize : Int)
    (htag : e.Type_ = "PushEvent") (hlen : e.Payload.Commits.len = N) :
    renderLine e = "- " ++ ("Pushed " ++ Nat.repr N ++ " commits to " ++ e.Repo.Name) ∧
      (e.Payload.Commits = none → renderLine e = "- Pushed 0 commits to " ++ e.Repo.Name) ∧
      renderLine { e with Payload := { e.Payload with Size := size, DistinctSize := distinctSize } } =
        renderLine e := by
  subst hlen
  refine ⟨?_, ?_, ?_⟩
  · simp [renderLine, htag, fmtD, ← String.append_assoc]
  · intro hnil
    have h0 : Nat.repr 0 = "0" := by decide
    simp [renderLine, htag, fmtD, hnil, GoSlice.len, h0]
  · simp [renderLine, htag]

/-- Witness of C4: two commits in a payload whose `Size` is 7 and whose
`DistinctSize` is 9. -/
theorem renderLine_push_count_witness :
    renderLine (sampleEvent "PushEvent") = "- " ++ ("Pushed " ++ Nat.repr 2 ++ " commits to " ++ "octo/repo") :=
  (renderLine_push_count (sampleEvent "PushEvent") 2 0 0 (by decide) (by decide)).1

/-! ## The fetch contract -/

/-- C5: when the response status is not 200 and the body decodes as an error
record with message `m`, status `s` and documentation URL `d`, the fetch
returns the nil list and an error whose text is exactly
`error: m (statusCode: s), check documentation: d`; for the fields of the 404
example that is the text of the spec. The HTTP status code of the response
enters only through being different from 200: the status in the text is `s`. -/
theorem fetch_remote_error_text (w : World) (app : application) (resp : Response)
    (m s d : String)
    (hreq : w.newRequestErr "GET" (urlWithParams app) = none)
    (hdo : w.clientDo ⟨"GET", urlWithParams app⟩ = Except.ok resp)
    (hstatus : resp.StatusCode ≠ StatusOK)
    (hdec : w.decodeEventError resp.Body = (⟨m, d, s⟩, none)) :
    (fetchUserActivity w app).events = none ∧
      (fetchUserActivity w app).err =
        some (errorsNew ("error: " ++ m ++ " (statusCode: " ++ s ++ "), check documentation: " ++ d)) ∧
      (m = "Not Found" → s = "404" → d = "https://docs.example/x" →
        (fetchUserActivity w app).err.map GoError.text =
          some "error: Not Found (statusCode: 404), check documentation: https://docs.example/x") := by
  rw [fetch_of_remote_error w app resp ⟨m, d, s⟩ hreq hdo hstatus hdec]
  refine ⟨rfl, rfl, ?_⟩
  intro hm hs hd
  subst hm hs hd
  have htext : remoteErrorText ⟨"Not Found", "https://docs.example/x", "404"⟩ =
      "error: Not Found (statusCode: 404), check documentation: https://docs.example/x" := by
    decide
  simp [errorsNew, htext]

/-- Witness of C5: the 404 response of the spec. -/
theorem fetch_remote_error_text_witness :
    (fetchUserActivity (sampleWorld (Except.ok ⟨404, bodyNotFound⟩)) sampleApp).events = none ∧
      (fetchUserActivity (sampleWorld (Except.ok ⟨404, bodyNotFound⟩)) sampleApp).err.map GoError.text =
        some "error: Not Found (statusCode: 404), check documentation: https://docs.example/x" :=
  have h := fetch_remote_error_text (sampleWorld (Except.ok ⟨404, bodyNotFound⟩)) sampleApp
    ⟨404, bodyNotFound⟩ "Not Found" "404" "https://docs.example/x" rfl rfl (by decide) (by decide)
  ⟨h.1, h.2.2 rfl rfl rfl⟩

/-- C6, as stated, fails: the user is spliced into the URL string unescaped,
and the library parses that string before it requests anything. For the
non-empty user `a#b` the string is
`https://api.github.com/users/a#b/events?per_page=30`, of which `url.Parse`
makes the path `/users/a`, no query, and the fragment `b/events?per_page=30`;
the request target sent is `/users/a`, without `/events` and without
`per_page`. For the user `a b` the path is sent as `/users/a%20b/events`. -/
theorem requested_url_not_verbatim :
    "a#b" ≠ "" ∧
      urlWithParams ⟨"a#b", 30⟩ = "https://api.github.com/users/a#b/events?per_page=30" ∧
      (Parse plainHost (goBytes (urlWithParams ⟨"a#b", 30⟩))).map
          (fun url => (url.Path, url.RawQuery, url.Fragment)) =
        some (goBytes "/users/a", [], goBytes "b/events?per_page=30") ∧
      (Parse plainHost (goBytes (urlWithParams ⟨"a#b", 30⟩))).map URL.RequestURI =
        some (goBytes "/users/a") ∧
      (Parse plainHost (goBytes (urlWithParams ⟨"a#b", 30⟩))).map URL.RequestURI ≠
        some (goBytes "/users/a#b/events?per_page=30") ∧
      (Parse plainHost (goBytes (urlWithParams ⟨"a b", 30⟩))).map URL.RequestURI =
        some (goBytes "/users/a%20b/events?per_page=30") := by
  decide

/-- C6, amended: for every username `u` (so for every non-empty one) and every
integer page size `n`, the URL string that `fetchUserActivity` builds and hands
to `http.NewRequest` is exactly `https://api.github.com/users/` ++ `u` ++
`/events?per_page=` ++ the decimal literal of `n`; the fetch makes no other
round trip than a GET built from that string, and makes it whenever
`http.NewRequest` accepts the string. When `u` consists only of ASCII letters,
digits, `-`, `_`, `.` and `~` (and the library accepts the host
`api.github.com`), `url.Parse` turns the string into scheme `https`, that
host, path `/users/` ++ `u` ++ `/events` and query `per_page=` ++ the decimal
literal of `n`, with no fragment, and the request target sent is
`/users/` ++ `u` ++ `/events?per_page=` ++ that literal. -/
theorem fetch_request_url (w : World)
    (parseAuthority : List Nat → Option (Option Userinfo × List Nat)) (host : List Nat)
    (u : String) (n : Int) :
    urlWithParams ⟨u, n⟩ =
        "https://api.github.com/users/" ++ u ++ "/events?per_page=" ++ fmtD n ∧
      (httpCallsOf (fetchUserActivity w ⟨u, n⟩).trace = [] ∨
        httpCallsOf (fetchUserActivity w ⟨u, n⟩).trace =
          [("GET", "https://api.github.com/users/" ++ u ++ "/events?per_page=" ++ fmtD n)]) ∧
      (w.newRequestErr "GET" (urlWithParams ⟨u, n⟩) = none →
        httpCallsOf (fetchUserActivity w ⟨u, n⟩).trace =
          [("GET", "https://api.github.com/users/" ++ u ++ "/events?per_page=" ++ fmtD n)]) ∧
      (u.data.all unreserved = true →
        parseAuthority (goBytes "api.github.com") = some (none, host) →
        Parse parseAuthority (goBytes (urlWithParams ⟨u, n⟩)) =
            some { URL.zero with
              Scheme := goBytes "https"
              Host := host
              Path := goBytes ("/users/" ++ u ++ "/events")
              RawQuery := goBytes ("per_page=" ++ fmtD n) } ∧
          (Parse parseAuthority (goBytes (urlWithParams ⟨u, n⟩))).map URL.RequestURI =
            some (goBytes ("/users/" ++ u ++ "/events?per_page=" ++ fmtD n))) := by
  have hurl := urlWithParams_eq ⟨u, n⟩
  simp only [] at hurl
  refine ⟨hurl, ?_, ?_, ?_⟩
  · rcases fetch_trace w ⟨u, n⟩ with h | h
    · left; rw [h]; rfl
    · right; rw [h, hurl]; rfl
  · intro hreq
    rcases fetch_trace w ⟨u, n⟩ with h | h
    · exfalso
      have hne : (fetchUserActivity w ⟨u, n⟩).trace ≠ [Effect.enter "fetchUserActivity"] := by
        unfold fetchUserActivity NewRequest
        rw [hreq]
        simp only []
        cases w.clientDo ⟨"GET", urlWithParams ⟨u, n⟩⟩ with
        | error e => simp
        | ok resp =>
          simp only []
          split
          · split <;> simp
          · split <;> simp
      exact hne h
    · rw [h, hurl]; rfl
  · intro hu hpa
    have hu' : ∀ c ∈ u.data, unreserved c = true := by
      simpa [List.all_eq_true] using hu
    have hp := events_path_safe u hu'
    have hq := events_query_safe n
    have hslash : goBytes "/users/" = 47 :: goBytes "users/" := by decide
    have hquery : goBytes "/events?per_page=" = goBytes "/events" ++ 63 :: goBytes "per_page=" := by
      decide
    have hpath : goBytes ("/users/" ++ u ++ "/events") =
        47 :: (goBytes "users/" ++ goBytes u ++ goBytes "/events") := by
      simp only [goBytes_append, hslash, List.cons_append]
    have htarget : goBytes ("/users/" ++ u ++ "/events?per_page=" ++ fmtD n) =
        47 :: (goBytes "users/" ++ goBytes u ++ goBytes "/events") ++
          63 :: (goBytes "per_page=" ++ goBytes (fmtD n)) := by
      simp only [goBytes_append, hslash, hquery, List.cons_append, List.append_assoc]
    have hparse := Parse_events_url parseAuthority host _ _ hpa hp hq.1 hq.2
    rw [goBytes_urlWithParams, hparse, hpath, htarget, goBytes_append "per_page=" (fmtD n)]
    refine ⟨rfl, ?_⟩
    rw [Option.map_some', RequestURI_events_url _ _ _ _ hp hq.2]

/-- Witness of C6 amended: user `octocat`; page sizes 30, 0, -5 and 1000. -/
theorem fetch_request_url_witness :
    httpCallsOf (fetchUserActivity (sampleWorld (Except.ok ⟨200, "[]"⟩)) ⟨"octocat", -5⟩).trace =
        [("GET", "https://api.github.com/users/" ++ "octocat" ++ "/events?per_page=" ++ fmtD (-5))] ∧
      (Parse plainHost (goBytes (urlWithParams ⟨"octocat", -5⟩))).map URL.RequestURI =
        some (goBytes ("/users/" ++ "octocat" ++ "/events?per_page=" ++ fmtD (-5))) ∧
      urlWithParams ⟨"octocat", 30⟩ = "https://api.github.com/users/octocat/events?per_page=30" ∧
      urlWithParams ⟨"octocat", 0⟩ = "https://api.github.com/users/octocat/events?per_page=0" ∧
      urlWithParams ⟨"octocat", -5⟩ = "https://api.github.com/users/octocat/events?per_page=-5" ∧
      urlWithParams ⟨"octocat", 1000⟩ = "https://api.github.com/users/octocat/events?per_page=1000" :=
  have h := fetch_request_url (sampleWorld (Except.ok ⟨200, "[]"⟩)) plainHost
    (goBytes "api.github.com") "octocat" (-5)
  ⟨h.2.2.1 rfl, (h.2.2.2 (by decide) rfl).2, by decide, by decide, by decide, by decide⟩

/-- C10: when a response of status 200 has a body that fails to decode, the
fetch returns the decode error and the nil list, whatever the decoder had
already stored; in every outcome an error comes with the nil list, and a
return without error, like every non-nil list, comes from a response of
status 200 whose body decoded to exactly that list. -/
theorem fetch_no_partial_list (w : World) (app : application) :
    (∀ (resp : Response) (stored : Events) (e : GoError),
        w.newRequestErr "GET" (urlWithParams app) = none →
        w.clientDo ⟨"GET", urlWithParams app⟩ = Except.ok resp →
        resp.StatusCode = StatusOK →
        w.decodeEvents resp.Body = (stored, some e) →
        (fetchUserActivity w app).events = none ∧ (fetchUserActivity w app).err = some e) ∧
      ((fetchUserActivity w app).err ≠ none → (fetchUserActivity w app).events = none) ∧
      ((fetchUserActivity w app).err = none →
        ∃ resp, w.clientDo ⟨"GET", urlWithParams app⟩ = Except.ok resp ∧
          resp.StatusCode = StatusOK ∧
          w.decodeEvents resp.Body = ((fetchUserActivity w app).events, none)) ∧
      ((fetchUserActivity w app).events ≠ none →
        ∃ resp, w.clientDo ⟨"GET", urlWithParams app⟩ = Except.ok resp ∧
          resp.StatusCode = StatusOK ∧
          w.decodeEvents resp.Body = ((fetchUserActivity w app).events, none)) := by
  refine ⟨?_, ?_, ?_, ?_⟩
  · intro resp stored e hreq hdo hstatus hdec
    rw [fetch_of_events_undecodable w app resp stored e hreq hdo hstatus hdec]
    exact ⟨rfl, rfl⟩
  · intro herr
    rcases fetch_cases w app with ⟨hnil, _⟩ | ⟨hnone, _⟩
    · exact hnil
    · exact absurd hnone herr
  · intro herr
    rcases fetch_cases w app with ⟨_, e, he⟩ | ⟨_, resp, _, hdo, hstatus, hdec⟩
    · rw [he] at herr; cases herr
    · exact ⟨resp, hdo, hstatus, hdec⟩
  · intro hev
    rcases fetch_cases w app with ⟨hnil, _⟩ | ⟨_, resp, _, hdo, hstatus, hdec⟩
    · exact absurd hnil hev
    · exact ⟨resp, hdo, hstatus, hdec⟩

/-- Witness of C10: a status-200 body cut off after its first event, for which
the decoder had stored one event before it failed. -/
theorem fetch_no_partial_list_witness :
    (sampleWorld (Except.ok ⟨200, bodyTruncated⟩)).decodeEvents bodyTruncated =
        (some [sampleEvent "WatchEvent"], some ⟨"unexpected EOF"⟩) ∧
      (fetchUserActivity (sampleWorld (Except.ok ⟨200, bodyTruncated⟩)) sampleApp).events = none ∧
      (fetchUserActivity (sampleWorld (Except.ok ⟨200, bodyTruncated⟩)) sampleApp).err =
        some ⟨"unexpected EOF"⟩ :=
  ⟨by decide,
    (fetch_no_partial_list (sampleWorld (Except.ok ⟨200, bodyTruncated⟩)) sampleApp).1
      ⟨200, bodyTruncated⟩ (some [sampleEvent "WatchEvent"]) ⟨"unexpected EOF"⟩
      rfl rfl (by decide) (by decide)⟩

/-! ## The program contract -/

/-- C7: when the fetch fails, `main` writes nothing to standard output and
ends through `log.Fatal`: the error text goes to the logger and the process
exits with status 1. A transport failure, a status other than 200 and a
status-200 body that does not decode are such failures. In every run standard
output is either empty or the header `Output:` followed by the line of every
event of the returned list, in order. -/
theorem main_all_or_nothing (w : World) (app : application) :
    (app.user ≠ "" → ∀ e, (fetchUserActivity w app).err = some e →
        stdoutOf (main w app).trace = [] ∧
        (main w app).trace = (fetchUserActivity w app).trace ++ [Effect.log e.text] ∧
        (main w app).ending = Termination.osExit 1 ∧
        (main w app).ending.status ≠ 0) ∧
      (∀ e, w.newRequestErr "GET" (urlWithParams app) = none →
        w.clientDo ⟨"GET", urlWithParams app⟩ = Except.error e →
        (fetchUserActivity w app).err = some e) ∧
      (∀ resp, w.newRequestErr "GET" (urlWithParams app) = none →
        w.clientDo ⟨"GET", urlWithParams app⟩ = Except.ok resp →
        resp.StatusCode ≠ StatusOK →
        ∃ e, (fetchUserActivity w app).err = some e) ∧
      (∀ resp stored e, w.newRequestErr "GET" (urlWithParams app) = none →
        w.clientDo ⟨"GET", urlWithParams app⟩ = Except.ok resp →
        resp.StatusCode = StatusOK →
        w.decodeEvents resp.Body = (stored, some e) →
        (fetchUserActivity w app).err = some e) ∧
      (stdoutOf (main w app).trace = [] ∨
        stdoutOf (main w app).trace =
          "Output:\n" :: (fetchUserActivity w app).events.elems.map (fun e => renderLine e ++ "\n")) := by
  refine ⟨?_, ?_, ?_, ?_, ?_⟩
  · intro huser e herr
    rw [main_of_fetch_err w app e huser herr]
    refine ⟨?_, rfl, rfl, ?_⟩
    · simp [stdoutOf_append, fetch_stdout, stdoutOf]
    · simp [Termination.status]
  · intro e hreq hdo
    rw [fetch_of_transport_err w app e hreq hdo]
  · intro resp hreq hdo hstatus
    rcases hdec : w.decodeEventError resp.Body with ⟨x, _ | e⟩
    · rw [fetch_of_remote_error w app resp x hreq hdo hstatus hdec]
      exact ⟨_, rfl⟩
    · rw [fetch_of_error_body_undecodable w app resp x e hreq hdo hstatus hdec]
      exact ⟨_, rfl⟩
  · intro resp stored e hreq hdo hstatus hdec
    rw [fetch_of_events_undecodable w app resp stored e hreq hdo hstatus hdec]
  · by_cases huser : app.user = ""
    · left
      rw [main_of_no_user w app huser]
      rfl
    · cases herr : (fetchUserActivity w app).err with
      | some e =>
        left
        rw [main_of_fetch_err w app e huser herr]
        simp [stdoutOf_append, fetch_stdout, stdoutOf]
      | none =>
        right
        by_cases hlen : (fetchUserActivity w app).events.len = 0
        · rw [main_of_no_events w app huser herr hlen]
          have hel : (fetchUserActivity w app).events.elems = [] := by
            cases hev : (fetchUserActivity w app).events with
            | none => rfl
            | some xs =>
              rw [hev] at hlen
              simpa [GoSlice.len, GoSlice.elems] using hlen
          simp [stdoutOf_append, fetch_stdout, stdoutOf, hel]
        · rw [main_of_events w app huser herr hlen]
          simp [stdoutOf_append, fetch_stdout, stdoutOf, stdoutOf_lines]

/-- Witness of C7: the host cannot be reached. -/
theorem main_all_or_nothing_witness :
    stdoutOf (main (sampleWorld (Except.error ⟨"no such host"⟩)) sampleApp).trace = [] ∧
      (main (sampleWorld (Except.error ⟨"no such host"⟩)) sampleApp).trace =
        (fetchUserActivity (sampleWorld (Except.error ⟨"no such host"⟩)) sampleApp).trace ++
          [Effect.log "no such host"] ∧
      (main (sampleWorld (Except.error ⟨"no such host"⟩)) sampleApp).ending = Termination.osExit 1 ∧
      (main (sampleWorld (Except.error ⟨"no such host"⟩)) sampleApp).ending.status ≠ 0 :=
  (main_all_or_nothing (sampleWorld (Except.error ⟨"no such host"⟩)) sampleApp).1
    (by decide) ⟨"no such host"⟩
    ((main_all_or_nothing (sampleWorld (Except.error ⟨"no such host"⟩)) sampleApp).2.1
      ⟨"no such host"⟩ rfl rfl)

/-- C8: when the fetch succeeds with a list of length zero, `main` writes the
header `Output:`, then hands the logger the single message that no
contributions were found, which names the queried user, and exits with status
0; no event line is written. -/
theorem main_no_contributions (w : World) (app : application)
    (huser : app.user ≠ "") (herr : (fetchUserActivity w app).err = none)
    (hlen : (fetchUserActivity w app).events.len = 0) :
    main w app =
        ⟨(fetchUserActivity w app).trace ++
            [Effect.stdout "Output:\n", Effect.log (noContributions app.user)],
          Termination.osExit 0⟩ ∧
      logOf (main w app).trace = [noContributions app.user] ∧
      stdoutOf (main w app).trace = ["Output:\n"] ∧
      (main w app).ending.status = 0 ∧
      noContributions app.user =
        "No contributions found for the GitHub user '" ++ app.user ++
          "'. It appears they have not made any public contributions recently or their activity is private.\n" := by
  rw [main_of_no_events w app huser herr hlen]
  refine ⟨rfl, ?_, ?_, rfl, rfl⟩
  · simp [logOf_append, fetch_log, logOf]
  · simp [stdoutOf_append, fetch_stdout, stdoutOf]

/-- Witness of C8: the service answers `[]` for `octocat`. -/
theorem main_no_contributions_witness :
    logOf (main (sampleWorld (Except.ok ⟨200, "[]"⟩)) sampleApp).trace =
        [noContributions "octocat"] ∧
      stdoutOf (main (sampleWorld (Except.ok ⟨200, "[]"⟩)) sampleApp).trace = ["Output:\n"] ∧
      (main (sampleWorld (Except.ok ⟨200, "[]"⟩)) sampleApp).ending.status = 0 :=
  have h := main_no_contributions (sampleWorld (Except.ok ⟨200, "[]"⟩)) sampleApp
    (by decide) (by decide) (by decide)
  ⟨h.2.1, h.2.2.1, h.2.2.2.1⟩

/-- C9: with an empty user, whatever the page size, `main` hands the logger
the informational message, exits with status 0, never enters
`fetchUserActivity`, makes no HTTP round trip and writes nothing to standard
output; with a non-empty user it enters `fetchUserActivity` exactly once. -/
theorem main_user_guard (w : World) (app : application) :
    (app.user = "" →
        main w app =
          ⟨[Effect.log "github username is required to fetch user activity\n"],
            Termination.osExit 0⟩ ∧
        fetchCalls (main w app).trace = 0 ∧
        httpCallsOf (main w app).trace = [] ∧
        stdoutOf (main w app).trace = [] ∧
        (main w app).ending.status = 0) ∧
      (app.user ≠ "" → fetchCalls (main w app).trace = 1) := by
  refine ⟨?_, ?_⟩
  · intro huser
    rw [main_of_no_user w app huser]
    exact ⟨rfl, rfl, rfl, rfl, rfl⟩
  · intro huser
    cases herr : (fetchUserActivity w app).err with
    | some e =>
      rw [main_of_fetch_err w app e huser herr]
      simp [fetchCalls_append, fetch_calls, fetchCalls]
    | none =>
      by_cases hlen : (fetchUserActivity w app).events.len = 0
      · rw [main_of_no_events w app huser herr hlen]
        simp [fetchCalls_append, fetch_calls, fetchCalls]
      · rw [main_of_events w app huser herr hlen]
        have hcons : ∀ l : List Effect,
            fetchCalls (Effect.stdout "Output:\n" :: l) = fetchCalls l := fun _ => rfl
        simp [fetchCalls_append, fetch_calls, hcons, fetchCalls_lines]

/-- Witness of C9: an empty user with page size -7, and `octocat`. -/
theorem main_user_guard_witness :
    fetchCalls (main (sampleWorld (Except.ok ⟨200, "[W]"⟩)) ⟨"", -7⟩).trace = 0 ∧
      stdoutOf (main (sampleWorld (Except.ok ⟨200, "[W]"⟩)) ⟨"", -7⟩).trace = [] ∧
      fetchCalls (main (sampleWorld (Except.ok ⟨200, "[W]"⟩)) sampleApp).trace = 1 :=
  have h0 := (main_user_guard (sampleWorld (Except.ok ⟨200, "[W]"⟩)) ⟨"", -7⟩).1 rfl
  ⟨h0.2.1, h0.2.2.2.1,
    (main_user_guard (sampleWorld (Except.ok ⟨200, "[W]"⟩)) sampleApp).2 (by decide)⟩

end GhContrib
